import Mathlib

/-!
Verification of the Count-Min-Log sketch (package `cml`, generic
`Sketch[T Register]` implementation).

Shallow-embedding conventions, stated once here:

* Registers (`T` = `uint8`/`uint16`/`uint32`) are modelled as `Nat` values;
  the register byte size `unsafe.Sizeof(T(0))` is the parameter `sz`
  (1, 2, or 4) and the register maximum `^T(0)` is `cMax sz = 2^(8*sz) - 1`.
  The code guards every increment with a saturation check, so Go's modular
  `T` arithmetic never wraps on the guarded paths; increments are written as
  plain `Nat` successor under those guards.
* `float64` values are idealised as exact rationals `ℚ`; `math.Exp(x*logExp)`
  applied at integer stages is the exact power `exp ^ c` (the cached field
  `logExp = math.Log(exp)` is only ever used through this identity, so it is
  not carried in the state).  Transcendental library calls that cannot be
  idealised exactly (`math.Log`, `math.Pow`) and the IEEE-754 bit conversions
  (`math.Float64bits`/`math.Float64frombits`) are injected as function
  parameters, mirroring the spec's treatment of external collaborators.
* The hash (`farm.Hash64`) and the RNG are injected capabilities (spec §1).
  The hash is a parameter `farm : List Nat → Nat` on byte-string keys.  The
  RNG decision `rng.Float64() < math.Exp(-c * logExp)` is abstracted as an
  oracle `rng : Nat → Nat → Bool` taking the index of the draw and the stage
  `c`; the sketch state carries the number of draws consumed in `draws`, so
  "no RNG draw happened" is expressible as `draws` being unchanged.
* Machine integers: `uint32` truncations carry an explicit `% 2^32`, and
  the `int` (64-bit) size arithmetic of `UnmarshalBinary` carries an
  explicit `% 2^64`, matching Go's defined wrap-around; `uint` values that
  the code keeps below any wrap (by its own guards) are plain `Nat`.
* Methods that mutate the receiver in place return the new receiver state;
  `Merge` and `UnmarshalBinary` return the receiver's final state paired with
  the `error` result (`none` = nil error), so "a failed call leaves the
  receiver unchanged" is the statement that the returned state equals the
  input state.  The scratch field `idxs` (an allocation-reuse buffer) is kept
  local to each operation.
-/

namespace CML

/-- Register maximum `^T(0)` for registers of `sz` bytes:
`2^(8*sz) - 1` (255 / 65535 / 4294967295). -/
def cMax (sz : Nat) : Nat := 2 ^ (8 * sz) - 1

/-- The sketch state (`Sketch[T Register]` of the generic implementation): width `w`, depth `d`,
logarithm base `exp`, the RNG decision oracle with the count of draws
consumed so far, and the flat row-major `store` of `w*d` registers. -/
structure Sketch where
  w : Nat
  d : Nat
  exp : ℚ
  rng : Nat → Nat → Bool
  draws : Nat
  store : List Nat

/-- Constructor `NewSketch[T](w, d, exp)`: rejects `exp <= 1.0`, otherwise allocates a
zeroed `w*d` store.  The seeded per-sketch RNG (`rand.NewPCG(w, d)`) is the
injected oracle `rng`. -/
def NewSketch (rng : Nat → Nat → Bool) (w d : Nat) (exp : ℚ) :
    Except String Sketch :=
  if exp ≤ 1 then .error "exp must be > 1.0"
  else .ok { w := w, d := d, exp := exp, rng := rng, draws := 0,
             store := List.replicate (w * d) 0 }

/-- The float64 value of the Go constant `math.E`
(`0x4005BF0A8B145769` = `6121026514868073 * 2^-51`), as an exact rational. -/
def mathE : ℚ := 6121026514868073 / 2251799813685248

/-- Go's `uint(x)` conversion of a nonnegative float: truncation.  (Negative
or non-finite inputs are implementation-defined in Go and are not relied on
by any theorem below.) -/
def uintOfFloat (q : ℚ) : Nat := (⌊q⌋).toNat

/-- Ceiling `math.Ceil`, exact on the rational idealisation of floats. -/
def ratCeil (q : ℚ) : ℚ := (⌈q⌉ : ℚ)

/-- Constructor `NewSketchForEpsilonDelta[T](epsilon, delta)`:
`width = uint(Ceil(E / epsilon))`, `depth = uint(Ceil(Log(1/delta)))`,
`alpha = Pow(float64(^T(0)), 1/(float64(^T(0)) - 1))`, then `NewSketch`.
`mathLog` and `mathPow` are the injected `math.Log` / `math.Pow`. -/
def NewSketchForEpsilonDelta (mathLog : ℚ → ℚ) (mathPow : ℚ → ℚ → ℚ)
    (rng : Nat → Nat → Bool) (sz : Nat) (epsilon delta : ℚ) :
    Except String Sketch :=
  let width := uintOfFloat (ratCeil (mathE / epsilon))
  let depth := uintOfFloat (ratCeil (mathLog (1 / delta)))
  let alpha := mathPow (cMax sz : ℚ) (1 / ((cMax sz : ℚ) - 1))
  NewSketch rng width depth alpha

/-- Decision `increaseDecision`: one RNG draw compared against `exp^(-c)`; the oracle
decides, and the draw counter advances. -/
def increaseDecision (S : Sketch) (c : Nat) : Bool × Sketch :=
  (S.rng S.draws c, { S with draws := S.draws + 1 })

/-- Low half `uint32(hs & 0xffffffff)` of the 64-bit hash. -/
def h1of (hs : Nat) : Nat := hs % 2 ^ 32

/-- High half `uint32((hs >> 32) & 0xffffffff)` of the 64-bit hash. -/
def h2of (hs : Nat) : Nat := (hs / 2 ^ 32) % 2 ^ 32

/-- The cell index of row `i`:
`(i * w) + (uint(h1 + uint32(i)*h2) % w)`, with the salted hash computed in
`uint32` arithmetic. -/
def cellIndex (w h1 h2 i : Nat) : Nat :=
  i * w + ((h1 + ((i % 2 ^ 32) * h2) % 2 ^ 32) % 2 ^ 32) % w

/-- The `d` cell indices of a key hashing to `(h1, h2)`, in row order. -/
def rowIdxs (w d h1 h2 : Nat) : List Nat :=
  (List.range d).map (cellIndex w h1 h2)

/-- The scan loop of `Update`: running minimum (seeded with `^T(0)`) and the
list of indices currently tied for the minimum (the `cml.idxs` buffer). -/
def updateScan (store : List Nat) (m0 : Nat) (idxs : List Nat) :
    Nat × List Nat :=
  idxs.foldl
    (fun acc idx =>
      let val := store.getD idx 0
      if val < acc.1 then (val, [idx])
      else if val = acc.1 then (acc.1, acc.2 ++ [idx])
      else acc)
    (m0, [])

/-- Method `Update(e)`: scan the `d` cells for the minimum and its tied indices;
return `false` if saturated (before any RNG draw), otherwise draw once and,
on acceptance, write `minVal+1` into every tied cell. -/
def Update (farm : List Nat → Nat) (sz : Nat) (S : Sketch) (key : List Nat) :
    Bool × Sketch :=
  let hs := farm key
  let idxs := rowIdxs S.w S.d (h1of hs) (h2of hs)
  let scan := updateScan S.store (cMax sz) idxs
  let minVal := scan.1
  if cMax sz ≤ minVal then (false, S)
  else
    let dec := increaseDecision S minVal
    if ¬ dec.1 then (false, dec.2)
    else
      (true, { dec.2 with
               store := scan.2.foldl (fun st idx => st.set idx (minVal + 1))
                          dec.2.store })

/-- Inner write of one accepted `BulkUpdate` increment: set every cell that
still equals `minVal` to `minVal + 1`, recording whether any write happened. -/
def bulkWrite (minVal : Nat) (acc : List Nat × Bool) (idx : Nat) :
    List Nat × Bool :=
  if acc.1.getD idx 0 = minVal then (acc.1.set idx (minVal + 1), true) else acc

/-- Loop of `BulkUpdate` over `freq`: break at saturation, draw per logical
increment, on acceptance increment the tied cells and advance `minVal`.
Returns the final store, the final draw counter, and `anyUpdated`. -/
def bulkLoop (sz : Nat) (rng : Nat → Nat → Bool) (idxs : List Nat) :
    Nat → Nat → List Nat → Nat → Bool → List Nat × Nat × Bool
  | 0, draws, store, _, any => (store, draws, any)
  | freq + 1, draws, store, minVal, any =>
    if cMax sz ≤ minVal then (store, draws, any)
    else if ¬ rng draws minVal then
      bulkLoop sz rng idxs freq (draws + 1) store minVal any
    else
      let wr := idxs.foldl (bulkWrite minVal) (store, false)
      bulkLoop sz rng idxs freq (draws + 1) wr.1
        (if wr.2 then minVal + 1 else minVal) (any || wr.2)

/-- Method `BulkUpdate(e, freq)`: hash once, record all `d` indices and their
minimum, then run the `freq` loop. -/
def BulkUpdate (farm : List Nat → Nat) (sz : Nat) (S : Sketch)
    (key : List Nat) (freq : Nat) : Bool × Sketch :=
  let hs := farm key
  let idxs := rowIdxs S.w S.d (h1of hs) (h2of hs)
  let minVal := idxs.foldl
    (fun m idx => if S.store.getD idx 0 < m then S.store.getD idx 0 else m)
    (cMax sz)
  let r := bulkLoop sz S.rng idxs freq S.draws S.store minVal false
  (r.2.2, { S with store := r.1, draws := r.2.1 })

/-- Point value `pointValue(c)`: `0` at stage `0`, else `exp^(c-1)`
(`math.Exp(float64(c-1) * logExp)`). -/
def pointValue (exp : ℚ) (c : Nat) : ℚ :=
  if c = 0 then 0 else exp ^ (c - 1)

/-- Cumulative `value(c)`; for `c >= 2` the stage is incremented
first unless that would overflow the register (`c < ^T(0)` check). -/
def value (sz : Nat) (exp : ℚ) (c : Nat) : ℚ :=
  if c ≤ 1 then pointValue exp c
  else
    let c' := if c < cMax sz then c + 1 else c
    (1 - pointValue exp c') / (1 - exp)

/-- The minimum-register scan of `Query` (seeded with `^T(0)`). -/
def queryMin (farm : List Nat → Nat) (sz : Nat) (S : Sketch)
    (key : List Nat) : Nat :=
  let hs := farm key
  (rowIdxs S.w S.d (h1of hs) (h2of hs)).foldl
    (fun c idx => if S.store.getD idx 0 < c then S.store.getD idx 0 else c)
    (cMax sz)

/-- Method `Query(e)`: the cumulative value of the minimum register of the key. -/
def Query (farm : List Nat → Nat) (sz : Nat) (S : Sketch)
    (key : List Nat) : ℚ :=
  value sz S.exp (queryMin farm sz S key)

/-- Method `Merge(other)`: shape check on `w`, `d`, `exp` and the store length, then
pointwise maximum into the receiver.  The result pairs the `error` value with
the receiver's final state; the argument is a read-only input. -/
def Merge (S other : Sketch) : Option String × Sketch :=
  if S.w ≠ other.w ∨ S.d ≠ other.d ∨ S.exp ≠ other.exp ∨
      S.store.length ≠ other.store.length then
    (some "sketches must have same dimensions and exp value", S)
  else
    (none, { S with
             store := S.store.zipWith (fun a b => if b > a then b else a)
                        other.store })

/-- Encoder `binary.LittleEndian.PutUintN`: `n` little-endian bytes of `v`. -/
def putUintLE : Nat → Nat → List Nat
  | 0, _ => []
  | n + 1, v => v % 256 :: putUintLE n (v / 256)

/-- Decoder `binary.LittleEndian.UintN`: read `n` little-endian bytes at `off`. -/
def readUintLE : Nat → List Nat → Nat → Nat
  | 0, _, _ => 0
  | n + 1, data, off => data.getD off 0 + 256 * readUintLE n data (off + 1)

/-- Method `MarshalBinary()`: 16-byte header (`w`, `d` as `uint32`; `exp` as the
`math.Float64bits` pattern, via the injected `f64bits`), then the registers
in order, `sz` bytes each. -/
def MarshalBinary (sz : Nat) (f64bits : ℚ → Nat) (S : Sketch) : List Nat :=
  putUintLE 4 S.w ++ putUintLE 4 S.d ++ putUintLE 8 (f64bits S.exp) ++
    S.store.flatMap (putUintLE sz)

/-- Method `UnmarshalBinary(data)`: length checks, header decode
(`f64frombits` injected), `NewSketch` for validation and allocation (with
the decoder's seeded RNG `rngSeed w d`), then the register reads.  The
receiver's final state is returned with the error value: on any error the
receiver `cml` is kept as it was, on success it is replaced wholesale
(`*cml = *sketch`).

The size check compares `len(data)` with
`16 + int(w)*int(d)*int(unsafe.Sizeof(T(0)))`, computed in the machine
`int` (64-bit), whose overflow is Go-defined two's-complement wrapping:
both sides are modelled by their 64-bit patterns, i.e. modulo `2^64`
(nested wrapping of the products and the sum equals one outer `% 2^64`;
a real Go slice length is below `2^63`, so the `% 2^64` on `len(data)` is
the identity on every actual buffer).  When a huge header makes the check
wrongly pass by overflow (e.g. `w = d = 2^31` with 4-byte registers on a
16-byte buffer), the Go program then panics allocating `w*d` registers in
`make` inside `NewSketch`; allocation is not modelled, so the model's `ok`
branch at such inputs records only that no error value is returned, which
is what the program (by panicking) also never does. -/
def UnmarshalBinary (sz : Nat) (f64frombits : Nat → ℚ)
    (rngSeed : Nat → Nat → Nat → Nat → Bool) (cml : Sketch)
    (data : List Nat) : Option String × Sketch :=
  if data.length < 16 then (some "data too short", cml)
  else
    let w := readUintLE 4 data 0
    let d := readUintLE 4 data 4
    let exp := f64frombits (readUintLE 8 data 8)
    let expectedSize := (16 + w * d * sz) % 2 ^ 64
    if data.length % 2 ^ 64 ≠ expectedSize then
      (some "data size mismatch", cml)
    else
      match NewSketch (rngSeed w d) w d exp with
      | .error e => (some e, cml)
      | .ok sketch =>
        (none, { sketch with
                 store := (List.range (w * d)).map
                   (fun i => readUintLE sz data (16 + i * sz)) })

/-- One mutating call in a trace: `Update` or `BulkUpdate`. -/
inductive Op where
  | update (key : List Nat)
  | bulk (key : List Nat) (freq : Nat)

/-- Apply one trace operation to a sketch (keeping the new state). -/
def applyOp (farm : List Nat → Nat) (sz : Nat) (S : Sketch) : Op → Sketch
  | .update k => (Update farm sz S k).2
  | .bulk k f => (BulkUpdate farm sz S k f).2

/-- Apply a trace of operations in order. -/
def applyOps (farm : List Nat → Nat) (sz : Nat) (S : Sketch)
    (ops : List Op) : Sketch :=
  ops.foldl (applyOp farm sz) S

/-- Iterated `Update` on a single fixed key. -/
def updateIter (farm : List Nat → Nat) (sz : Nat) (key : List Nat)
    (S : Sketch) : Nat → Sketch
  | 0 => S
  | n + 1 => (Update farm sz (updateIter farm sz key S n) key).2

/-- The running-minimum fold shared by `Query`, `BulkUpdate` and the first
component of `updateScan` (proof-layer abbreviation). -/
def minFold (store : List Nat) (m0 : Nat) (L : List Nat) : Nat :=
  L.foldl (fun m idx => if store.getD idx 0 < m then store.getD idx 0 else m)
    m0

/-- The exponent that `value` effectively sums to: `0`, `c`, or `cMax - 1`
at saturation (proof-layer abbreviation). -/
def stageOf (sz c : Nat) : Nat :=
  if c = 0 then 0 else if c < cMax sz then c else cMax sz - 1

lemma if_lt_eq_min (a m : Nat) : (if a < m then a else m) = min m a := by
  rcases Nat.lt_or_ge a m with h | h
  · simp [h, Nat.min_eq_right h.le]
  · simp [Nat.not_lt.mpr h, Nat.min_eq_left h]

lemma minFold_nil (store : List Nat) (m0 : Nat) :
    minFold store m0 [] = m0 := rfl

lemma minFold_cons (store : List Nat) (m0 idx : Nat) (L : List Nat) :
    minFold store m0 (idx :: L) =
      minFold store (min m0 (store.getD idx 0)) L := by
  simp only [minFold, List.foldl_cons, if_lt_eq_min]

lemma minFold_le_init (store : List Nat) (L : List Nat) :
    ∀ m0, minFold store m0 L ≤ m0 := by
  induction L with
  | nil => intro m0; simp [minFold_nil]
  | cons idx L ih =>
    intro m0
    rw [minFold_cons]
    exact le_trans (ih _) (Nat.min_le_left _ _)

lemma le_minFold (store : List Nat) (L : List Nat) :
    ∀ m0 c, c ≤ m0 → (∀ idx ∈ L, c ≤ store.getD idx 0) →
      c ≤ minFold store m0 L := by
  induction L with
  | nil => intro m0 c h _; simpa [minFold_nil] using h
  | cons idx L ih =>
    intro m0 c h hall
    rw [minFold_cons]
    exact ih _ _ (le_min h (hall idx (List.mem_cons_self idx L)))
      (fun j hj => hall j (List.mem_cons_of_mem _ hj))

lemma minFold_mono (s t : List Nat) (L : List Nat)
    (hst : ∀ p, s.getD p 0 ≤ t.getD p 0) :
    ∀ m0 m1, m0 ≤ m1 → minFold s m0 L ≤ minFold t m1 L := by
  induction L with
  | nil => intro m0 m1 h; simpa [minFold_nil] using h
  | cons idx L ih =>
    intro m0 m1 h
    rw [minFold_cons, minFold_cons]
    exact ih _ _ (min_le_min h (hst idx))

lemma queryMin_eq_minFold (farm : List Nat → Nat) (sz : Nat) (S : Sketch)
    (key : List Nat) :
    queryMin farm sz S key =
      minFold S.store (cMax sz)
        (rowIdxs S.w S.d (h1of (farm key)) (h2of (farm key))) := rfl

lemma queryMin_le (farm : List Nat → Nat) (sz : Nat) (S : Sketch)
    (key : List Nat) : queryMin farm sz S key ≤ cMax sz :=
  minFold_le_init _ _ _

lemma getD_set (l : List Nat) (i j v : Nat) :
    (l.set i v).getD j 0 =
      if i = j ∧ i < l.length then v else l.getD j 0 := by
  rw [List.getD_eq_getElem?_getD, List.getD_eq_getElem?_getD,
    List.getElem?_set]
  by_cases h1 : i = j
  · subst h1
    by_cases h2 : i < l.length
    · simp [h2]
    · have : l[i]? = none := List.getElem?_eq_none (Nat.le_of_not_lt h2)
      simp [h2, this]
  · simp [h1]

lemma getD_foldl_set (v : Nat) :
    ∀ (L : List Nat) (st : List Nat) (p : Nat),
      (L.foldl (fun s i => s.set i v) st).getD p 0 =
        if p ∈ L ∧ p < st.length then v else st.getD p 0 := by
  intro L
  induction L with
  | nil => intro st p; simp
  | cons i L ih =>
    intro st p
    rw [List.foldl_cons, ih, List.length_set, getD_set]
    by_cases hm : p ∈ L
    · by_cases hr : p < st.length
      · simp [hm, hr, List.mem_cons]
      · simp only [hm, hr, and_false, if_false, and_true, true_and,
          List.mem_cons, or_true, if_true]
        split_ifs with h
        · exact absurd (h.1 ▸ h.2) hr
        · rfl
    · by_cases hip : i = p
      · subst hip
        by_cases hr : i < st.length <;> simp [hm, hr, List.mem_cons]
      · have hpi : ¬ p = i := fun h => hip h.symm
        simp [hm, hip, hpi, List.mem_cons]

lemma length_foldl_set (v : Nat) :
    ∀ (L : List Nat) (st : List Nat),
      (L.foldl (fun s i => s.set i v) st).length = st.length := by
  intro L
  induction L with
  | nil => intro st; rfl
  | cons i L ih => intro st; rw [List.foldl_cons, ih, List.length_set]

lemma updateScan_fold_fst (store : List Nat) :
    ∀ (L : List Nat) (acc : Nat × List Nat),
      (L.foldl (fun acc idx =>
        let val := store.getD idx 0
        if val < acc.1 then (val, [idx])
        else if val = acc.1 then (acc.1, acc.2 ++ [idx])
        else acc) acc).1 = minFold store acc.1 L := by
  intro L
  induction L with
  | nil => intro acc; rfl
  | cons idx L ih =>
    intro acc
    rw [List.foldl_cons, ih, minFold_cons]
    congr 1
    show (if store.getD idx 0 < acc.1 then (store.getD idx 0, [idx])
          else if store.getD idx 0 = acc.1 then (acc.1, acc.2 ++ [idx])
          else acc).1 = min acc.1 (store.getD idx 0)
    by_cases h1 : store.getD idx 0 < acc.1
    · rw [if_pos h1]
      exact (Nat.min_eq_right h1.le).symm
    · by_cases h2 : store.getD idx 0 = acc.1
      · rw [if_neg h1, if_pos h2, h2, Nat.min_self]
      · rw [if_neg h1, if_neg h2]
        exact (Nat.min_eq_left (Nat.not_lt.mp h1)).symm

lemma updateScan_fst (store : List Nat) (m0 : Nat) (L : List Nat) :
    (updateScan store m0 L).1 = minFold store m0 L :=
  updateScan_fold_fst store L (m0, [])

lemma updateScan_fold_mem (store : List Nat) :
    ∀ (L : List Nat) (acc : Nat × List Nat),
      (∀ j ∈ acc.2, store.getD j 0 = acc.1) →
      ∀ j ∈ (L.foldl (fun acc idx =>
        let val := store.getD idx 0
        if val < acc.1 then (val, [idx])
        else if val = acc.1 then (acc.1, acc.2 ++ [idx])
        else acc) acc).2,
        store.getD j 0 = (L.foldl (fun acc idx =>
        let val := store.getD idx 0
        if val < acc.1 then (val, [idx])
        else if val = acc.1 then (acc.1, acc.2 ++ [idx])
        else acc) acc).1 := by
  intro L
  induction L with
  | nil => intro acc h; exact h
  | cons idx L ih =>
    intro acc h
    rw [List.foldl_cons]
    apply ih
    show ∀ j ∈ (if store.getD idx 0 < acc.1 then (store.getD idx 0, [idx])
          else if store.getD idx 0 = acc.1 then (acc.1, acc.2 ++ [idx])
          else acc).2, store.getD j 0 =
        (if store.getD idx 0 < acc.1 then (store.getD idx 0, [idx])
          else if store.getD idx 0 = acc.1 then (acc.1, acc.2 ++ [idx])
          else acc).1
    by_cases h1 : store.getD idx 0 < acc.1
    · rw [if_pos h1]
      intro j hj
      rw [List.mem_singleton.mp hj]
    · by_cases h2 : store.getD idx 0 = acc.1
      · rw [if_neg h1, if_pos h2]
        intro j hj
        rcases List.mem_append.mp hj with hj | hj
        · exact h j hj
        · rw [List.mem_singleton.mp hj, h2]
      · rw [if_neg h1, if_neg h2]
        exact h

lemma updateScan_mem (store : List Nat) (m0 : Nat) (L : List Nat) :
    ∀ j ∈ (updateScan store m0 L).2,
      store.getD j 0 = (updateScan store m0 L).1 :=
  updateScan_fold_mem store L (m0, []) (by intro j hj; cases hj)

/-- The saturated branch of `Update`: `false` is returned with the state
(draw counter included) untouched. -/
lemma Update_sat (farm : List Nat → Nat) (sz : Nat) (S : Sketch)
    (key : List Nat)
    (h : cMax sz ≤ (updateScan S.store (cMax sz)
      (rowIdxs S.w S.d (h1of (farm key)) (h2of (farm key)))).1) :
    Update farm sz S key = (false, S) := by
  simp only [Update]
  rw [if_pos h]

/-- The declined branch of `Update`: one draw consumed, store untouched. -/
lemma Update_declined (farm : List Nat → Nat) (sz : Nat) (S : Sketch)
    (key : List Nat)
    (h1 : ¬ cMax sz ≤ (updateScan S.store (cMax sz)
      (rowIdxs S.w S.d (h1of (farm key)) (h2of (farm key)))).1)
    (h2 : S.rng S.draws (updateScan S.store (cMax sz)
      (rowIdxs S.w S.d (h1of (farm key)) (h2of (farm key)))).1 = false) :
    Update farm sz S key = (false, { S with draws := S.draws + 1 }) := by
  simp only [Update, increaseDecision]
  rw [if_neg h1, if_pos (by rw [h2]; exact Bool.false_ne_true)]

/-- The accepting branch of `Update`: one draw consumed, the tied-minimum
cells written to `minVal + 1`. -/
lemma Update_accepted (farm : List Nat → Nat) (sz : Nat) (S : Sketch)
    (key : List Nat) (scan : Nat × List Nat)
    (hscan : scan = updateScan S.store (cMax sz)
      (rowIdxs S.w S.d (h1of (farm key)) (h2of (farm key))))
    (h1 : ¬ cMax sz ≤ scan.1) (h2 : S.rng S.draws scan.1 = true) :
    Update farm sz S key =
      (true, { S with
               draws := S.draws + 1
               store := scan.2.foldl
                 (fun st idx => st.set idx (scan.1 + 1)) S.store }) := by
  subst hscan
  simp only [Update, increaseDecision]
  rw [if_neg h1, if_neg (by rw [h2]; simp)]

/-- Behaviour of one `Update` call on the sketch state: `w`, `d`, `exp` and
the store length are unchanged, the store grows pointwise, and the register
bound is preserved. -/
lemma Update_store_spec (farm : List Nat → Nat) (sz : Nat) (S : Sketch)
    (key : List Nat) :
    (Update farm sz S key).2.w = S.w ∧ (Update farm sz S key).2.d = S.d ∧
    (Update farm sz S key).2.exp = S.exp ∧
    (Update farm sz S key).2.store.length = S.store.length ∧
    (∀ p, S.store.getD p 0 ≤ (Update farm sz S key).2.store.getD p 0) ∧
    ((∀ p, S.store.getD p 0 ≤ cMax sz) →
      ∀ p, (Update farm sz S key).2.store.getD p 0 ≤ cMax sz) := by
  by_cases h1 : cMax sz ≤ (updateScan S.store (cMax sz)
      (rowIdxs S.w S.d (h1of (farm key)) (h2of (farm key)))).1
  · rw [Update_sat farm sz S key h1]
    exact ⟨rfl, rfl, rfl, rfl, fun p => le_refl _, fun hb => hb⟩
  · rcases Bool.eq_false_or_eq_true (S.rng S.draws (updateScan S.store
        (cMax sz) (rowIdxs S.w S.d (h1of (farm key)) (h2of (farm key)))).1)
      with h2 | h2
    swap
    · rw [Update_declined farm sz S key h1 h2]
      exact ⟨rfl, rfl, rfl, rfl, fun p => le_refl _, fun hb => hb⟩
    · rw [Update_accepted farm sz S key _ rfl h1 h2]
      refine ⟨rfl, rfl, rfl, length_foldl_set _ _ _, ?_, ?_⟩
      · intro p
        rw [getD_foldl_set]
        split_ifs with h
        · rw [updateScan_mem S.store (cMax sz) _ p h.1]
          exact Nat.le_succ _
        · exact le_refl _
      · intro hb p
        rw [getD_foldl_set]
        split_ifs with h
        · exact Nat.succ_le_of_lt (Nat.not_le.mp h1)
        · exact hb p

lemma bulkWrite_fold_len (m : Nat) :
    ∀ (L : List Nat) (acc : List Nat × Bool),
      ((L.foldl (bulkWrite m) acc).1).length = acc.1.length := by
  intro L
  induction L with
  | nil => intro acc; rfl
  | cons idx L ih =>
    intro acc
    rw [List.foldl_cons, ih]
    unfold bulkWrite
    split_ifs
    · exact List.length_set _ _ _
    · rfl

lemma bulkWrite_fold_ptwise (m : Nat) :
    ∀ (L : List Nat) (acc : List Nat × Bool) (p : Nat),
      acc.1.getD p 0 ≤ ((L.foldl (bulkWrite m) acc).1).getD p 0 := by
  intro L
  induction L with
  | nil => intro acc p; exact le_refl _
  | cons idx L ih =>
    intro acc p
    rw [List.foldl_cons]
    refine le_trans ?_ (ih (bulkWrite m acc idx) p)
    unfold bulkWrite
    split_ifs with h
    · rw [getD_set]
      split_ifs with h2
      · rw [← h2.1, h]
        exact Nat.le_succ _
      · exact le_refl _
    · exact le_refl _

lemma bulkWrite_fold_bound (m K : Nat) (hmK : m + 1 ≤ K) :
    ∀ (L : List Nat) (acc : List Nat × Bool),
      (∀ q, acc.1.getD q 0 ≤ K) →
      ∀ q, ((L.foldl (bulkWrite m) acc).1).getD q 0 ≤ K := by
  intro L
  induction L with
  | nil => intro acc h q; exact h q
  | cons idx L ih =>
    intro acc h q
    rw [List.foldl_cons]
    refine ih (bulkWrite m acc idx) ?_ q
    intro r
    unfold bulkWrite
    split_ifs with h1
    · rw [getD_set]
      split_ifs with h2
      · exact hmK
      · exact h r
    · exact h r

lemma bulkLoop_len (sz : Nat) (rng : Nat → Nat → Bool) (idxs : List Nat) :
    ∀ (freq draws : Nat) (store : List Nat) (minVal : Nat) (any : Bool),
      (bulkLoop sz rng idxs freq draws store minVal any).1.length =
        store.length := by
  intro freq
  induction freq with
  | zero => intro draws store minVal any; rfl
  | succ freq ih =>
    intro draws store minVal any
    simp only [bulkLoop]
    by_cases h1 : cMax sz ≤ minVal
    · simp [h1]
    · by_cases h2 : rng draws minVal = true
      · simp only [h1, if_false, h2, not_true, ite_false, ite_true]
        rw [ih, bulkWrite_fold_len]
      · simp only [h1, if_false, h2, not_false_iff, ite_true]
        exact ih _ _ _ _

lemma bulkLoop_ptwise (sz : Nat) (rng : Nat → Nat → Bool) (idxs : List Nat) :
    ∀ (freq draws : Nat) (store : List Nat) (minVal : Nat) (any : Bool)
      (p : Nat),
      store.getD p 0 ≤
        (bulkLoop sz rng idxs freq draws store minVal any).1.getD p 0 := by
  intro freq
  induction freq with
  | zero => intro draws store minVal any p; exact le_refl _
  | succ freq ih =>
    intro draws store minVal any p
    simp only [bulkLoop]
    by_cases h1 : cMax sz ≤ minVal
    · simp [h1]
    · by_cases h2 : rng draws minVal = true
      · simp only [h1, if_false, h2, not_true, ite_false, ite_true]
        exact le_trans (bulkWrite_fold_ptwise minVal idxs (store, false) p)
          (ih _ _ _ _ p)
      · simp only [h1, if_false, h2, not_false_iff, ite_true]
        exact ih _ _ _ _ p

lemma bulkLoop_bound (sz : Nat) (rng : Nat → Nat → Bool) (idxs : List Nat) :
    ∀ (freq draws : Nat) (store : List Nat) (minVal : Nat) (any : Bool),
      (∀ q, store.getD q 0 ≤ cMax sz) →
      ∀ q, (bulkLoop sz rng idxs freq draws store minVal any).1.getD q 0 ≤
        cMax sz := by
  intro freq
  induction freq with
  | zero => intro draws store minVal any h q; exact h q
  | succ freq ih =>
    intro draws store minVal any h q
    simp only [bulkLoop]
    by_cases h1 : cMax sz ≤ minVal
    · simp only [h1, if_true]
      exact h q
    · by_cases h2 : rng draws minVal = true
      · simp only [h1, if_false, h2, not_true, ite_false, ite_true]
        exact ih _ _ _ _
          (bulkWrite_fold_bound minVal (cMax sz)
            (Nat.succ_le_of_lt (Nat.not_le.mp h1)) idxs (store, false) h) q
      · simp only [h1, if_false, h2, not_false_iff, ite_true]
        exact ih _ _ _ _ h q

/-- Behaviour of one `BulkUpdate` call on the sketch state, as for
`Update_store_spec`. -/
lemma BulkUpdate_store_spec (farm : List Nat → Nat) (sz : Nat) (S : Sketch)
    (key : List Nat) (freq : Nat) :
    (BulkUpdate farm sz S key freq).2.w = S.w ∧
    (BulkUpdate farm sz S key freq).2.d = S.d ∧
    (BulkUpdate farm sz S key freq).2.exp = S.exp ∧
    (BulkUpdate farm sz S key freq).2.store.length = S.store.length ∧
    (∀ p, S.store.getD p 0 ≤
      (BulkUpdate farm sz S key freq).2.store.getD p 0) ∧
    ((∀ p, S.store.getD p 0 ≤ cMax sz) →
      ∀ p, (BulkUpdate farm sz S key freq).2.store.getD p 0 ≤ cMax sz) := by
  refine ⟨rfl, rfl, rfl, bulkLoop_len _ _ _ _ _ _ _ _, ?_, ?_⟩
  · intro p
    exact bulkLoop_ptwise _ _ _ _ _ _ _ _ p
  · intro hb p
    exact bulkLoop_bound _ _ _ _ _ _ _ _ hb p

lemma cMax_ge (sz : Nat) (hsz : 1 ≤ sz) : 255 ≤ cMax sz := by
  have h2 : 2 ^ 8 ≤ 2 ^ (8 * sz) :=
    Nat.pow_le_pow_right (by norm_num) (by omega)
  unfold cMax
  omega

lemma geom_frac (exp : ℚ) (hexp : exp ≠ 1) (n : Nat) :
    (1 - exp ^ n) / (1 - exp) = ∑ j ∈ Finset.range n, exp ^ j := by
  rw [geom_sum_eq hexp n, ← neg_div_neg_eq, neg_sub, neg_sub]

lemma value_eq_sum (sz : Nat) (exp : ℚ) (hsz : 1 ≤ sz) (hexp : 1 < exp) :
    ∀ c, c ≤ cMax sz →
      value sz exp c = ∑ j ∈ Finset.range (stageOf sz c), exp ^ j := by
  intro c hc
  have h255 := cMax_ge sz hsz
  have hne : exp ≠ 1 := ne_of_gt hexp
  by_cases h0 : c = 0
  · subst h0
    simp [value, pointValue, stageOf]
  · by_cases hone : c = 1
    · subst hone
      have h1cm : 1 < cMax sz := by omega
      simp [value, pointValue, stageOf, h1cm, Finset.sum_range_one]
    · have h2c : 2 ≤ c := by omega
      have hgt : ¬ c ≤ 1 := by omega
      by_cases hlt : c < cMax sz
      · have : value sz exp c = (1 - exp ^ c) / (1 - exp) := by
          simp only [value, hgt, if_false, hlt, if_true, pointValue,
            Nat.succ_ne_zero, Nat.add_sub_cancel]
        rw [this, geom_frac exp hne]
        have : stageOf sz c = c := by simp [stageOf, h0, hlt]
        rw [this]
      · have hceq : c = cMax sz := by omega
        have : value sz exp c = (1 - exp ^ (c - 1)) / (1 - exp) := by
          have hc0 : ¬ c = 0 := h0
          simp only [value, hgt, if_false, hlt, pointValue, hc0]
        rw [this, geom_frac exp hne]
        have : stageOf sz c = c - 1 := by
          unfold stageOf
          split_ifs <;> omega
        rw [this]

lemma stageOf_mono (sz : Nat) (hsz : 1 ≤ sz) (c c' : Nat) (hcc : c ≤ c')
    (hc' : c' ≤ cMax sz) : stageOf sz c ≤ stageOf sz c' := by
  have h255 := cMax_ge sz hsz
  unfold stageOf
  split_ifs <;> omega

lemma value_mono (sz : Nat) (exp : ℚ) (hsz : 1 ≤ sz) (hexp : 1 < exp)
    (c c' : Nat) (hcc : c ≤ c') (hc' : c' ≤ cMax sz) :
    value sz exp c ≤ value sz exp c' := by
  have hnn : (0:ℚ) ≤ exp := le_of_lt (lt_trans zero_lt_one hexp)
  rw [value_eq_sum sz exp hsz hexp c (le_trans hcc hc'),
    value_eq_sum sz exp hsz hexp c' hc']
  exact Finset.sum_le_sum_of_subset_of_nonneg
    (Finset.range_subset.mpr (stageOf_mono sz hsz c c' hcc hc'))
    (fun j _ _ => pow_nonneg hnn j)

lemma applyOp_spec (farm : List Nat → Nat) (sz : Nat) (S : Sketch)
    (op : Op) :
    (applyOp farm sz S op).w = S.w ∧ (applyOp farm sz S op).d = S.d ∧
    (applyOp farm sz S op).exp = S.exp ∧
    (applyOp farm sz S op).store.length = S.store.length ∧
    (∀ p, S.store.getD p 0 ≤ (applyOp farm sz S op).store.getD p 0) ∧
    ((∀ p, S.store.getD p 0 ≤ cMax sz) →
      ∀ p, (applyOp farm sz S op).store.getD p 0 ≤ cMax sz) := by
  cases op with
  | update k => exact Update_store_spec farm sz S k
  | bulk k f => exact BulkUpdate_store_spec farm sz S k f

lemma applyOps_cons (farm : List Nat → Nat) (sz : Nat) (S : Sketch)
    (op : Op) (ops : List Op) :
    applyOps farm sz S (op :: ops) =
      applyOps farm sz (applyOp farm sz S op) ops := rfl

lemma applyOps_ptwise (farm : List Nat → Nat) (sz : Nat) :
    ∀ (ops : List Op) (S : Sketch) (p : Nat),
      S.store.getD p 0 ≤ (applyOps farm sz S ops).store.getD p 0 := by
  intro ops
  induction ops with
  | nil => intro S p; exact le_refl _
  | cons op ops ih =>
    intro S p
    rw [applyOps_cons]
    exact le_trans ((applyOp_spec farm sz S op).2.2.2.2.1 p) (ih _ p)

lemma applyOps_bound (farm : List Nat → Nat) (sz : Nat) :
    ∀ (ops : List Op) (S : Sketch),
      (∀ p, S.store.getD p 0 ≤ cMax sz) →
      ∀ p, (applyOps farm sz S ops).store.getD p 0 ≤ cMax sz := by
  intro ops
  induction ops with
  | nil => intro S h p; exact h p
  | cons op ops ih =>
    intro S h p
    rw [applyOps_cons]
    exact ih _ ((applyOp_spec farm sz S op).2.2.2.2.2 h) p

lemma length_putUintLE : ∀ n v, (putUintLE n v).length = n := by
  intro n
  induction n with
  | zero => intro v; rfl
  | succ n ih =>
    intro v
    simp [putUintLE, ih]

lemma readUintLE_cons_succ :
    ∀ (n : Nat) (x : Nat) (data : List Nat) (off : Nat),
      readUintLE n (x :: data) (off + 1) = readUintLE n data off := by
  intro n
  induction n with
  | zero => intro x data off; rfl
  | succ n ih =>
    intro x data off
    simp only [readUintLE, List.getD_cons_succ]
    rw [ih x data (off + 1)]

lemma readUintLE_append_skip :
    ∀ (pre data : List Nat) (n off : Nat),
      readUintLE n (pre ++ data) (pre.length + off) = readUintLE n data off := by
  intro pre
  induction pre with
  | nil => intro data n off; simp
  | cons x pre ih =>
    intro data n off
    have harith : (x :: pre).length + off = (pre.length + off) + 1 := by
      simp [List.length_cons]
      omega
    rw [harith, List.cons_append, readUintLE_cons_succ, ih]

lemma readUintLE_putUintLE :
    ∀ (n v : Nat) (rest : List Nat),
      readUintLE n (putUintLE n v ++ rest) 0 = v % 256 ^ n := by
  intro n
  induction n with
  | zero => intro v rest; simp [readUintLE, Nat.mod_one]
  | succ n ih =>
    intro v rest
    simp only [putUintLE, List.cons_append, readUintLE, List.getD_cons_zero]
    rw [readUintLE_cons_succ, ih (v / 256) rest]
    rw [pow_succ, Nat.mul_comm (256 ^ n) 256, ← Nat.mod_mul]

lemma length_flatMap_put (sz : Nat) :
    ∀ (store : List Nat),
      (store.flatMap (putUintLE sz)).length = store.length * sz := by
  intro store
  induction store with
  | nil => simp
  | cons a store ih =>
    rw [List.flatMap_cons, List.length_append, ih, length_putUintLE,
      List.length_cons]
    ring

lemma readUintLE_flatMap (sz : Nat) :
    ∀ (store : List Nat) (i : Nat), i < store.length →
      readUintLE sz (store.flatMap (putUintLE sz)) (i * sz) =
        store.getD i 0 % 256 ^ sz := by
  intro store
  induction store with
  | nil => intro i hi; simp at hi
  | cons a store ih =>
    intro i hi
    cases i with
    | zero =>
      rw [List.flatMap_cons, Nat.zero_mul]
      have := readUintLE_putUintLE sz a (store.flatMap (putUintLE sz))
      rw [this]
      rfl
    | succ i =>
      rw [List.flatMap_cons]
      have harith : (i + 1) * sz = (putUintLE sz a).length + i * sz := by
        rw [length_putUintLE]
        ring
      rw [harith, readUintLE_append_skip, ih i (by simpa using hi),
        List.getD_cons_succ]

lemma MarshalBinary_length (sz : Nat) (f64bits : ℚ → Nat) (S : Sketch)
    (hlen : S.store.length = S.w * S.d) :
    (MarshalBinary sz f64bits S).length = 16 + S.w * S.d * sz := by
  simp only [MarshalBinary, List.length_append, length_putUintLE,
    length_flatMap_put, hlen]
  try omega

lemma MarshalBinary_read_w (sz : Nat) (f64bits : ℚ → Nat) (S : Sketch) :
    readUintLE 4 (MarshalBinary sz f64bits S) 0 = S.w % 256 ^ 4 := by
  simp only [MarshalBinary]
  rw [List.append_assoc, List.append_assoc]
  exact readUintLE_putUintLE 4 S.w _

lemma MarshalBinary_read_d (sz : Nat) (f64bits : ℚ → Nat) (S : Sketch) :
    readUintLE 4 (MarshalBinary sz f64bits S) 4 = S.d % 256 ^ 4 := by
  simp only [MarshalBinary]
  rw [List.append_assoc, List.append_assoc]
  have hx := readUintLE_append_skip (putUintLE 4 S.w)
    (putUintLE 4 S.d ++ (putUintLE 8 (f64bits S.exp) ++
      S.store.flatMap (putUintLE sz))) 4 0
  rw [length_putUintLE, Nat.add_zero] at hx
  rw [hx]
  exact readUintLE_putUintLE 4 S.d _

lemma MarshalBinary_read_exp (sz : Nat) (f64bits : ℚ → Nat) (S : Sketch) :
    readUintLE 8 (MarshalBinary sz f64bits S) 8 = f64bits S.exp % 256 ^ 8 := by
  simp only [MarshalBinary]
  rw [List.append_assoc]
  have hx := readUintLE_append_skip (putUintLE 4 S.w ++ putUintLE 4 S.d)
    (putUintLE 8 (f64bits S.exp) ++ S.store.flatMap (putUintLE sz)) 8 0
  rw [List.length_append, length_putUintLE, length_putUintLE,
    Nat.add_zero] at hx
  rw [hx]
  exact readUintLE_putUintLE 8 (f64bits S.exp) _

lemma MarshalBinary_read_store (sz : Nat) (f64bits : ℚ → Nat) (S : Sketch)
    (i : Nat) (hi : i < S.store.length) :
    readUintLE sz (MarshalBinary sz f64bits S) (16 + i * sz) =
      S.store.getD i 0 % 256 ^ sz := by
  simp only [MarshalBinary]
  have hx := readUintLE_append_skip
    (putUintLE 4 S.w ++ putUintLE 4 S.d ++ putUintLE 8 (f64bits S.exp))
    (S.store.flatMap (putUintLE sz)) sz (i * sz)
  have hlen16 : (putUintLE 4 S.w ++ putUintLE 4 S.d ++
      putUintLE 8 (f64bits S.exp)).length = 16 := by
    simp [List.length_append, length_putUintLE]
  rw [hlen16] at hx
  rw [hx]
  exact readUintLE_flatMap sz S.store i hi

lemma getD_eq_get (l : List Nat) (i : Nat) (h : i < l.length) :
    l.getD i 0 = l.get ⟨i, h⟩ := by
  rw [List.getD_eq_getElem?_getD, List.getElem?_eq_getElem h,
    List.get_eq_getElem]
  rfl

lemma getD_mem (l : List Nat) (i : Nat) (h : i < l.length) :
    l.getD i 0 ∈ l := by
  rw [getD_eq_get l i h]
  exact List.get_mem l i h

lemma cells_getD_le (store : List Nat) (K : Nat)
    (h : ∀ x ∈ store, x ≤ K) : ∀ p, store.getD p 0 ≤ K := by
  intro p
  by_cases hp : p < store.length
  · exact h _ (getD_mem store p hp)
  · rw [List.getD_eq_getElem?_getD,
      List.getElem?_eq_none (Nat.le_of_not_lt hp)]
    exact Nat.zero_le K

lemma getD_replicate_zero (n p : Nat) :
    (List.replicate n (0:Nat)).getD p 0 = 0 := by
  rw [List.getD_eq_getElem?_getD, List.getElem?_replicate]
  split_ifs <;> rfl

lemma rowIdxs_lt (w d h1 h2 : Nat) (hw : 0 < w) :
    ∀ idx ∈ rowIdxs w d h1 h2, idx < w * d := by
  intro idx hidx
  rcases List.mem_map.mp hidx with ⟨i, hi, rfl⟩
  have hid : i < d := List.mem_range.mp hi
  unfold cellIndex
  have hr : ((h1 + ((i % 2 ^ 32) * h2) % 2 ^ 32) % 2 ^ 32) % w < w :=
    Nat.mod_lt _ hw
  have : i * w + w ≤ d * w := by
    have : i + 1 ≤ d := hid
    calc i * w + w = (i + 1) * w := by ring
    _ ≤ d * w := Nat.mul_le_mul_right w this
  have hcomm : d * w = w * d := Nat.mul_comm d w
  omega

/-- The saturated `BulkUpdate` loop never runs: store, draws and the
`anyUpdated` flag come back unchanged. -/
lemma bulkLoop_sat (sz : Nat) (rng : Nat → Nat → Bool) (idxs : List Nat)
    (minVal : Nat) (h : cMax sz ≤ minVal) :
    ∀ (freq draws : Nat) (store : List Nat) (any : Bool),
      bulkLoop sz rng idxs freq draws store minVal any =
        (store, draws, any) := by
  intro freq
  cases freq with
  | zero => intro draws store any; rfl
  | succ freq =>
    intro draws store any
    simp only [bulkLoop]
    rw [if_pos h]

/-- A saturated key (scan minimum at `cMax`) makes `BulkUpdate` a no-op
returning `false`, for every frequency. -/
lemma BulkUpdate_sat (farm : List Nat → Nat) (sz : Nat) (S : Sketch)
    (key : List Nat) (freq : Nat)
    (h : cMax sz ≤ minFold S.store (cMax sz)
      (rowIdxs S.w S.d (h1of (farm key)) (h2of (farm key)))) :
    BulkUpdate farm sz S key freq = (false, S) := by
  simp only [BulkUpdate]
  have hfold : List.foldl
      (fun m idx => if S.store.getD idx 0 < m then S.store.getD idx 0 else m)
      (cMax sz) (rowIdxs S.w S.d (h1of (farm key)) (h2of (farm key))) =
      minFold S.store (cMax sz)
        (rowIdxs S.w S.d (h1of (farm key)) (h2of (farm key))) := rfl
  rw [hfold, bulkLoop_sat sz S.rng _ _ h]

lemma Query_congr (farm : List Nat → Nat) (sz : Nat) (S1 S2 : Sketch)
    (hw : S1.w = S2.w) (hd : S1.d = S2.d) (hexp : S1.exp = S2.exp)
    (hst : S1.store = S2.store) (key : List Nat) :
    Query farm sz S1 key = Query farm sz S2 key := by
  unfold Query queryMin
  rw [hw, hd, hexp, hst]

/-- Monotonicity: `Query` of the same key never decreases across one `Update` of it. -/
lemma Query_mono_update (farm : List Nat → Nat) (sz : Nat) (S : Sketch)
    (key : List Nat) (hsz : 1 ≤ sz) (hexp : 1 < S.exp)
    (hcells : ∀ p, S.store.getD p 0 ≤ cMax sz) :
    Query farm sz S key ≤ Query farm sz (Update farm sz S key).2 key := by
  obtain ⟨hw, hd, hex, _, hpt, _⟩ := Update_store_spec farm sz S key
  unfold Query
  rw [hex]
  apply value_mono sz S.exp hsz hexp
  · rw [queryMin_eq_minFold, queryMin_eq_minFold, hw, hd]
    exact minFold_mono _ _ _ hpt _ _ (le_refl _)
  · exact queryMin_le farm sz _ key

lemma updateIter_inv (farm : List Nat → Nat) (sz : Nat) (key : List Nat)
    (S : Sketch) (hexp : 1 < S.exp)
    (hcells : ∀ p, S.store.getD p 0 ≤ cMax sz) :
    ∀ n, 1 < (updateIter farm sz key S n).exp ∧
      (∀ p, (updateIter farm sz key S n).store.getD p 0 ≤ cMax sz) := by
  intro n
  induction n with
  | zero => exact ⟨hexp, hcells⟩
  | succ n ih =>
    obtain ⟨ih1, ih2⟩ := ih
    obtain ⟨_, _, hex, _, _, hbd⟩ :=
      Update_store_spec farm sz (updateIter farm sz key S n) key
    exact ⟨by rw [updateIter, hex]; exact ih1,
      by rw [updateIter]; exact hbd ih2⟩

/-- Input shorter than 16 bytes: `UnmarshalBinary` fails, receiver kept. -/
lemma Unmarshal_err_short (sz : Nat) (f64frombits : Nat → ℚ)
    (rngSeed : Nat → Nat → Nat → Nat → Bool) (R : Sketch) (data : List Nat)
    (h : data.length < 16) :
    UnmarshalBinary sz f64frombits rngSeed R data =
      (some "data too short", R) := by
  simp only [UnmarshalBinary]
  rw [if_pos h]

/-- Total length differing from the header-derived size: fail, receiver
kept. -/
lemma Unmarshal_err_size (sz : Nat) (f64frombits : Nat → ℚ)
    (rngSeed : Nat → Nat → Nat → Nat → Bool) (R : Sketch) (data : List Nat)
    (h16 : ¬ data.length < 16)
    (h : data.length % 2 ^ 64 ≠
      (16 + readUintLE 4 data 0 * readUintLE 4 data 4 * sz) % 2 ^ 64) :
    UnmarshalBinary sz f64frombits rngSeed R data =
      (some "data size mismatch", R) := by
  simp only [UnmarshalBinary]
  rw [if_neg h16, if_pos h]

/-- A decoded `exp` value that fails the `NewSketch` validation: fail,
receiver kept. -/
lemma Unmarshal_err_exp (sz : Nat) (f64frombits : Nat → ℚ)
    (rngSeed : Nat → Nat → Nat → Nat → Bool) (R : Sketch) (data : List Nat)
    (h16 : ¬ data.length < 16)
    (hsz : data.length % 2 ^ 64 =
      (16 + readUintLE 4 data 0 * readUintLE 4 data 4 * sz) % 2 ^ 64)
    (hexp : f64frombits (readUintLE 8 data 8) ≤ 1) :
    UnmarshalBinary sz f64frombits rngSeed R data =
      (some "exp must be > 1.0", R) := by
  simp only [UnmarshalBinary]
  rw [if_neg h16, if_neg (not_not_intro hsz)]
  have hns : NewSketch (rngSeed (readUintLE 4 data 0) (readUintLE 4 data 4))
      (readUintLE 4 data 0) (readUintLE 4 data 4)
      (f64frombits (readUintLE 8 data 8)) =
      .error "exp must be > 1.0" := by
    unfold NewSketch
    rw [if_pos hexp]
  rw [hns]

/-- The successful decode path of `UnmarshalBinary`. -/
lemma Unmarshal_ok (sz : Nat) (f64frombits : Nat → ℚ)
    (rngSeed : Nat → Nat → Nat → Nat → Bool) (R : Sketch) (data : List Nat)
    (h16 : ¬ data.length < 16)
    (hsz : data.length % 2 ^ 64 =
      (16 + readUintLE 4 data 0 * readUintLE 4 data 4 * sz) % 2 ^ 64)
    (hexp : 1 < f64frombits (readUintLE 8 data 8)) :
    UnmarshalBinary sz f64frombits rngSeed R data =
      (none, { w := readUintLE 4 data 0
               d := readUintLE 4 data 4
               exp := f64frombits (readUintLE 8 data 8)
               rng := rngSeed (readUintLE 4 data 0) (readUintLE 4 data 4)
               draws := 0
               store := (List.range
                   (readUintLE 4 data 0 * readUintLE 4 data 4)).map
                 (fun i => readUintLE sz data (16 + i * sz)) }) := by
  simp only [UnmarshalBinary]
  rw [if_neg h16, if_neg (not_not_intro hsz)]
  have hns : NewSketch (rngSeed (readUintLE 4 data 0) (readUintLE 4 data 4))
      (readUintLE 4 data 0) (readUintLE 4 data 4)
      (f64frombits (readUintLE 8 data 8)) =
      .ok { w := readUintLE 4 data 0
            d := readUintLE 4 data 4
            exp := f64frombits (readUintLE 8 data 8)
            rng := rngSeed (readUintLE 4 data 0) (readUintLE 4 data 4)
            draws := 0
            store := List.replicate
              (readUintLE 4 data 0 * readUintLE 4 data 4) 0 } := by
    unfold NewSketch
    rw [if_neg (not_le.mpr hexp)]
  rw [hns]

lemma getD_zipWith_max :
    ∀ (l1 l2 : List Nat), l1.length = l2.length → ∀ i,
      (List.zipWith (fun a b => if b > a then b else a) l1 l2).getD i 0 =
        max (l1.getD i 0) (l2.getD i 0) := by
  intro l1
  induction l1 with
  | nil =>
    intro l2 h i
    have : l2 = [] := by
      cases l2 with
      | nil => rfl
      | cons b l2 => simp at h
    subst this
    rfl
  | cons a l1 ih =>
    intro l2 h i
    cases l2 with
    | nil => simp at h
    | cons b l2 =>
      cases i with
      | zero =>
        show (if b > a then b else a) = max a b
        rcases Nat.lt_or_ge a b with hab | hab
        · rw [if_pos hab, Nat.max_eq_right hab.le]
        · rw [if_neg (Nat.not_lt.mpr hab), Nat.max_eq_left hab]
      | succ i =>
        show (List.zipWith _ l1 l2).getD i 0 = max (l1.getD i 0) (l2.getD i 0)
        exact ih l2 (by simpa using h) i

/-- C1: for every sketch and key, `Query(key)` computes the minimum value
`c` of the `D` registers the key hashes to (`queryMin`) and returns `0` when
`c = 0`; `1 = exp^0` when `c = 1`; `(1 - exp^(cMax-1))/(1 - exp)` when `c`
equals the register maximum `cMax` (the increment of `c` is skipped at
saturation); and `(1 - exp^c)/(1 - exp)` for every other `c ≥ 2`. -/
theorem claim_C1 (farm : List Nat → Nat) (sz : Nat) (S : Sketch)
    (key : List Nat) (hsz : 1 ≤ sz) (hw : 0 < S.w) :
    Query farm sz S key =
      (if queryMin farm sz S key = 0 then 0
       else if queryMin farm sz S key = 1 then 1
       else if queryMin farm sz S key = cMax sz then
         (1 - S.exp ^ (cMax sz - 1)) / (1 - S.exp)
       else (1 - S.exp ^ queryMin farm sz S key) / (1 - S.exp)) := by
  have hc := queryMin_le farm sz S key
  have h255 := cMax_ge sz hsz
  show value sz S.exp (queryMin farm sz S key) = _
  set c := queryMin farm sz S key with hcq
  by_cases h0 : c = 0
  · rw [if_pos h0, h0]
    simp [value, pointValue]
  · rw [if_neg h0]
    by_cases h1 : c = 1
    · rw [if_pos h1, h1]
      simp [value, pointValue]
    · rw [if_neg h1]
      have hgt : ¬ c ≤ 1 := by omega
      by_cases hcm : c = cMax sz
      · rw [if_pos hcm, hcm]
        simp only [value, pointValue]
        rw [if_neg (by omega : ¬ cMax sz ≤ 1), if_neg (lt_irrefl (cMax sz)),
          if_neg (by omega : ¬ cMax sz = 0)]
      · rw [if_neg hcm]
        have hlt : c < cMax sz := by omega
        simp only [value, pointValue]
        rw [if_neg hgt, if_pos hlt, if_neg (Nat.succ_ne_zero c),
          Nat.add_sub_cancel]

/-- Witness for C1 at a concrete sketch (`sz = 1`, `w = d = 1`, `exp = 2`,
one register holding `3`). -/
theorem claim_C1_witness :
    1 ≤ 1 ∧ 0 < (Sketch.mk 1 1 2 (fun _ _ => true) 0 [3]).w ∧
    Query (fun _ => 0) 1 (Sketch.mk 1 1 2 (fun _ _ => true) 0 [3]) [] =
      (if queryMin (fun _ => 0) 1
          (Sketch.mk 1 1 2 (fun _ _ => true) 0 [3]) [] = 0 then 0
       else if queryMin (fun _ => 0) 1
          (Sketch.mk 1 1 2 (fun _ _ => true) 0 [3]) [] = 1 then 1
       else if queryMin (fun _ => 0) 1
          (Sketch.mk 1 1 2 (fun _ _ => true) 0 [3]) [] = cMax 1 then
         (1 - (Sketch.mk 1 1 2 (fun _ _ => true) 0 [3]).exp ^ (cMax 1 - 1)) /
           (1 - (Sketch.mk 1 1 2 (fun _ _ => true) 0 [3]).exp)
       else (1 - (Sketch.mk 1 1 2 (fun _ _ => true) 0 [3]).exp ^
           queryMin (fun _ => 0) 1
             (Sketch.mk 1 1 2 (fun _ _ => true) 0 [3]) []) /
         (1 - (Sketch.mk 1 1 2 (fun _ _ => true) 0 [3]).exp)) :=
  ⟨by decide, by decide,
    claim_C1 (fun _ => 0) 1 (Sketch.mk 1 1 2 (fun _ _ => true) 0 [3]) []
      (by decide) (by decide)⟩

/-- C2: a key whose scan minimum is at the register maximum makes `Update`
return `false` with the state (store and RNG draw counter) untouched, and
likewise `BulkUpdate` for every frequency; on a sketch whose every cell is
at `cMax` this holds for every key and frequency. -/
theorem claim_C2 (farm : List Nat → Nat) (sz : Nat) (S : Sketch)
    (key : List Nat) (freq : Nat) :
    ((∀ idx ∈ rowIdxs S.w S.d (h1of (farm key)) (h2of (farm key)),
        cMax sz ≤ S.store.getD idx 0) →
      Update farm sz S key = (false, S) ∧
      BulkUpdate farm sz S key freq = (false, S)) ∧
    ((∀ x ∈ S.store, x = cMax sz) → S.store.length = S.w * S.d →
      0 < S.w →
      ∀ (key2 : List Nat) (freq2 : Nat),
        Update farm sz S key2 = (false, S) ∧
        BulkUpdate farm sz S key2 freq2 = (false, S)) := by
  have part1 : ∀ (k : List Nat) (f : Nat),
      (∀ idx ∈ rowIdxs S.w S.d (h1of (farm k)) (h2of (farm k)),
        cMax sz ≤ S.store.getD idx 0) →
      Update farm sz S k = (false, S) ∧
      BulkUpdate farm sz S k f = (false, S) := by
    intro k f hmin
    have hm : cMax sz ≤ minFold S.store (cMax sz)
        (rowIdxs S.w S.d (h1of (farm k)) (h2of (farm k))) :=
      le_minFold _ _ _ _ (le_refl _) hmin
    constructor
    · apply Update_sat
      rw [updateScan_fst]
      exact hm
    · exact BulkUpdate_sat farm sz S k f hm
  constructor
  · exact part1 key freq
  · intro hall hlen hw key2 freq2
    apply part1
    intro idx hidx
    have hlt : idx < S.w * S.d := rowIdxs_lt S.w S.d _ _ hw idx hidx
    have hmem : S.store.getD idx 0 = cMax sz :=
      hall _ (getD_mem S.store idx (by rw [hlen]; exact hlt))
    omega

/-- Witness for C2 at a fully saturated one-cell 8-bit sketch. -/
theorem claim_C2_witness :
    (∀ idx ∈ rowIdxs (Sketch.mk 1 1 2 (fun _ _ => true) 0 [255]).w
        (Sketch.mk 1 1 2 (fun _ _ => true) 0 [255]).d
        (h1of ((fun _ : List Nat => 0) [])) (h2of ((fun _ : List Nat => 0) [])),
      cMax 1 ≤ (Sketch.mk 1 1 2 (fun _ _ => true) 0 [255]).store.getD idx 0) ∧
    Update (fun _ => 0) 1 (Sketch.mk 1 1 2 (fun _ _ => true) 0 [255]) [] =
      (false, Sketch.mk 1 1 2 (fun _ _ => true) 0 [255]) ∧
    BulkUpdate (fun _ => 0) 1
        (Sketch.mk 1 1 2 (fun _ _ => true) 0 [255]) [] 5 =
      (false, Sketch.mk 1 1 2 (fun _ _ => true) 0 [255]) :=
  ⟨by decide,
    (claim_C2 (fun _ => 0) 1 (Sketch.mk 1 1 2 (fun _ _ => true) 0 [255])
      [] 5).1 (by decide)⟩

/-- C3: starting from any constructor-built sketch, over any trace of
`Update`/`BulkUpdate` operations (any keys, frequencies and RNG outcomes)
every cell of the store is monotonically non-decreasing and always stays in
`[0, cMax]`. -/
theorem claim_C3 (farm : List Nat → Nat) (sz : Nat)
    (rng : Nat → Nat → Bool) (w d : Nat) (exp : ℚ) (S0 : Sketch)
    (h0 : NewSketch rng w d exp = Except.ok S0)
    (ops extra : List Op) (i : Nat) :
    (applyOps farm sz S0 ops).store.getD i 0 ≤
      (applyOps farm sz S0 (ops ++ extra)).store.getD i 0 ∧
    (applyOps farm sz S0 ops).store.getD i 0 ≤ cMax sz := by
  have hS0 : S0.store = List.replicate (w * d) 0 := by
    unfold NewSketch at h0
    by_cases h : exp ≤ 1
    · rw [if_pos h] at h0
      cases h0
    · rw [if_neg h] at h0
      have h2 := Except.ok.inj h0
      rw [← h2]
  have hbase : ∀ p, S0.store.getD p 0 ≤ cMax sz := by
    intro p
    rw [hS0, getD_replicate_zero]
    exact Nat.zero_le _
  have happ : applyOps farm sz S0 (ops ++ extra) =
      applyOps farm sz (applyOps farm sz S0 ops) extra := by
    unfold applyOps
    rw [List.foldl_append]
  constructor
  · rw [happ]
    exact applyOps_ptwise farm sz extra _ i
  · exact applyOps_bound farm sz ops S0 hbase i

/-- Witness for C3: a fresh 1-cell sketch, one `Update` then one
`BulkUpdate` appended. -/
theorem claim_C3_witness :
    NewSketch (fun _ _ => true) 1 1 2 =
      Except.ok (Sketch.mk 1 1 2 (fun _ _ => true) 0 [0]) ∧
    ((applyOps (fun _ => 0) 1 (Sketch.mk 1 1 2 (fun _ _ => true) 0 [0])
        [Op.update []]).store.getD 0 0 ≤
      (applyOps (fun _ => 0) 1 (Sketch.mk 1 1 2 (fun _ _ => true) 0 [0])
        ([Op.update []] ++ [Op.bulk [] 2])).store.getD 0 0 ∧
      (applyOps (fun _ => 0) 1 (Sketch.mk 1 1 2 (fun _ _ => true) 0 [0])
        [Op.update []]).store.getD 0 0 ≤ cMax 1) :=
  ⟨rfl, claim_C3 (fun _ => 0) 1 (fun _ _ => true) 1 1 2
    (Sketch.mk 1 1 2 (fun _ _ => true) 0 [0]) rfl
    [Op.update []] [Op.bulk [] 2] 0⟩

/-- C4: for two sketches of the same register type, `Merge` fails with the
shape-mismatch error exactly when `w`, `d` or `exp` differ (the register
width is equal by construction of the type; the store-length test of the
code adds nothing for well-formed sketches); on success every receiver cell
becomes the pointwise maximum, the other fields are kept, and the argument
is a read-only input of the model; on failure the receiver is returned
unchanged. -/
theorem claim_C4 (S other : Sketch)
    (hS : S.store.length = S.w * S.d)
    (hO : other.store.length = other.w * other.d) :
    (((Merge S other).1 = none) ↔
      (S.w = other.w ∧ S.d = other.d ∧ S.exp = other.exp)) ∧
    ((Merge S other).1 = none →
      (Merge S other).2.w = S.w ∧ (Merge S other).2.d = S.d ∧
      (Merge S other).2.exp = S.exp ∧
      (Merge S other).2.store.length = S.store.length ∧
      (∀ i, (Merge S other).2.store.getD i 0 =
        max (S.store.getD i 0) (other.store.getD i 0))) ∧
    ((Merge S other).1 ≠ none → (Merge S other).2 = S) := by
  by_cases hc : S.w ≠ other.w ∨ S.d ≠ other.d ∨ S.exp ≠ other.exp ∨
      S.store.length ≠ other.store.length
  · have hm : Merge S other =
        (some "sketches must have same dimensions and exp value", S) := by
      unfold Merge
      rw [if_pos hc]
    rw [hm]
    refine ⟨⟨fun h => Option.noConfusion h, ?_⟩,
      fun h => Option.noConfusion h, fun _ => rfl⟩
    rintro ⟨h1, h2, h3⟩
    exfalso
    rcases hc with h | h | h | h
    · exact h h1
    · exact h h2
    · exact h h3
    · apply h
      rw [hS, hO, h1, h2]
  · push_neg at hc
    obtain ⟨hw, hd, hexp, hlen⟩ := hc
    have hm : Merge S other =
        (none,
          { S with
            store :=
              S.store.zipWith (fun a b => if b > a then b else a)
                other.store }) := by
      unfold Merge
      rw [if_neg (by push_neg; exact ⟨hw, hd, hexp, hlen⟩)]
    rw [hm]
    refine ⟨⟨fun _ => ⟨hw, hd, hexp⟩, fun _ => rfl⟩, ?_,
      fun h => absurd rfl h⟩
    intro _
    refine ⟨rfl, rfl, rfl, ?_, ?_⟩
    · show (List.zipWith _ S.store other.store).length = S.store.length
      rw [List.length_zipWith, hlen, Nat.min_self]
    · intro i
      exact getD_zipWith_max S.store other.store hlen i

/-- Witness for C4 on two matching 2-cell sketches. -/
theorem claim_C4_witness :
    (Sketch.mk 2 1 2 (fun _ _ => true) 0 [5, 9]).store.length =
      (Sketch.mk 2 1 2 (fun _ _ => true) 0 [5, 9]).w *
        (Sketch.mk 2 1 2 (fun _ _ => true) 0 [5, 9]).d ∧
    (((Merge (Sketch.mk 2 1 2 (fun _ _ => true) 0 [5, 9])
        (Sketch.mk 2 1 2 (fun _ _ => false) 0 [7, 3])).1 = none) ↔
      ((Sketch.mk 2 1 2 (fun _ _ => true) 0 [5, 9]).w =
          (Sketch.mk 2 1 2 (fun _ _ => false) 0 [7, 3]).w ∧
        (Sketch.mk 2 1 2 (fun _ _ => true) 0 [5, 9]).d =
          (Sketch.mk 2 1 2 (fun _ _ => false) 0 [7, 3]).d ∧
        (Sketch.mk 2 1 2 (fun _ _ => true) 0 [5, 9]).exp =
          (Sketch.mk 2 1 2 (fun _ _ => false) 0 [7, 3]).exp)) :=
  ⟨by decide,
    (claim_C4 (Sketch.mk 2 1 2 (fun _ _ => true) 0 [5, 9])
      (Sketch.mk 2 1 2 (fun _ _ => false) 0 [7, 3])
      (by decide) (by decide)).1⟩

/-- C6: for a fixed key, `Query(key)` is monotonically non-decreasing along
iterated `Update(key)` calls, whether or not each call returns `true`. -/
theorem claim_C6 (farm : List Nat → Nat) (sz : Nat) (S : Sketch)
    (key : List Nat) (hsz : 1 ≤ sz) (hexp : 1 < S.exp)
    (hcells : ∀ x ∈ S.store, x ≤ cMax sz) (n : Nat) :
    Query farm sz (updateIter farm sz key S n) key ≤
      Query farm sz (updateIter farm sz key S (n + 1)) key := by
  obtain ⟨hexp', hcells'⟩ :=
    updateIter_inv farm sz key S hexp (cells_getD_le _ _ hcells) n
  show Query farm sz (updateIter farm sz key S n) key ≤
    Query farm sz (Update farm sz (updateIter farm sz key S n) key).2 key
  exact Query_mono_update farm sz _ key hsz hexp' hcells'

/-- Witness for C6 on a fresh 1-cell sketch, first step. -/
theorem claim_C6_witness :
    1 ≤ 1 ∧ (1:ℚ) < (Sketch.mk 1 1 2 (fun _ _ => true) 0 [0]).exp ∧
    Query (fun _ => 0) 1
        (updateIter (fun _ => 0) 1 []
          (Sketch.mk 1 1 2 (fun _ _ => true) 0 [0]) 0) [] ≤
      Query (fun _ => 0) 1
        (updateIter (fun _ => 0) 1 []
          (Sketch.mk 1 1 2 (fun _ _ => true) 0 [0]) (0 + 1)) [] :=
  ⟨by decide, by decide,
    claim_C6 (fun _ => 0) 1 (Sketch.mk 1 1 2 (fun _ _ => true) 0 [0]) []
      (by decide) (by decide) (by decide) 0⟩

lemma cMax_lt_pow (sz : Nat) : cMax sz < 256 ^ sz := by
  have h2 : (256:Nat) ^ sz = 2 ^ (8 * sz) := by
    rw [show (256:Nat) = 2 ^ 8 from rfl, ← pow_mul]
  have hpos : 0 < 2 ^ (8 * sz) := Nat.pow_pos (by norm_num)
  unfold cMax
  omega

set_option maxHeartbeats 1000000 in
/-- C5: unmarshalling the output of `MarshalBinary` succeeds for every
well-formed sketch whose `w` and `d` fit in 32 bits, reproducing `w`, `d`,
`exp` and the store cell-for-cell, so `Query` agrees exactly on every key.
(`hrt` is the `Float64frombits ∘ Float64bits = id` contract of the injected
IEEE-754 conversions, at this sketch's `exp`.) -/
theorem claim_C5 (farm : List Nat → Nat) (sz : Nat) (f64bits : ℚ → Nat)
    (f64frombits : Nat → ℚ) (rngSeed : Nat → Nat → Nat → Nat → Bool)
    (S R : Sketch) (hsz : 1 ≤ sz) (hw : S.w < 2 ^ 32) (hd : S.d < 2 ^ 32)
    (hexp : 1 < S.exp) (hlen : S.store.length = S.w * S.d)
    (hcells : ∀ x ∈ S.store, x ≤ cMax sz)
    (hrt : f64frombits (f64bits S.exp % 2 ^ 64) = S.exp) :
    (UnmarshalBinary sz f64frombits rngSeed R
        (MarshalBinary sz f64bits S)).1 = none ∧
    (UnmarshalBinary sz f64frombits rngSeed R
        (MarshalBinary sz f64bits S)).2.w = S.w ∧
    (UnmarshalBinary sz f64frombits rngSeed R
        (MarshalBinary sz f64bits S)).2.d = S.d ∧
    (UnmarshalBinary sz f64frombits rngSeed R
        (MarshalBinary sz f64bits S)).2.exp = S.exp ∧
    (UnmarshalBinary sz f64frombits rngSeed R
        (MarshalBinary sz f64bits S)).2.store = S.store ∧
    (∀ key, Query farm sz (UnmarshalBinary sz f64frombits rngSeed R
      (MarshalBinary sz f64bits S)).2 key = Query farm sz S key) := by
  have hL := MarshalBinary_length sz f64bits S hlen
  have hw' : readUintLE 4 (MarshalBinary sz f64bits S) 0 = S.w := by
    rw [MarshalBinary_read_w]
    have h2 : (256:Nat) ^ 4 = 2 ^ 32 := by norm_num
    rw [h2, Nat.mod_eq_of_lt hw]
  have hd' : readUintLE 4 (MarshalBinary sz f64bits S) 4 = S.d := by
    rw [MarshalBinary_read_d]
    have h2 : (256:Nat) ^ 4 = 2 ^ 32 := by norm_num
    rw [h2, Nat.mod_eq_of_lt hd]
  have hexp' : f64frombits (readUintLE 8 (MarshalBinary sz f64bits S) 8) =
      S.exp := by
    rw [MarshalBinary_read_exp]
    have h2 : (256:Nat) ^ 8 = 2 ^ 64 := by norm_num
    rw [h2]
    exact hrt
  have h16 : ¬ (MarshalBinary sz f64bits S).length < 16 := by
    rw [hL]
    omega
  have hszeq : (MarshalBinary sz f64bits S).length % 2 ^ 64 =
      (16 + readUintLE 4 (MarshalBinary sz f64bits S) 0 *
        readUintLE 4 (MarshalBinary sz f64bits S) 4 * sz) % 2 ^ 64 := by
    rw [hw', hd', hL]
  have hexpgt : 1 < f64frombits (readUintLE 8 (MarshalBinary sz f64bits S) 8)
    := by
    rw [hexp']
    exact hexp
  have hok := Unmarshal_ok sz f64frombits rngSeed R
    (MarshalBinary sz f64bits S) h16 hszeq hexpgt
  have hstore : (List.range (readUintLE 4 (MarshalBinary sz f64bits S) 0 *
      readUintLE 4 (MarshalBinary sz f64bits S) 4)).map
      (fun i => readUintLE sz (MarshalBinary sz f64bits S) (16 + i * sz)) =
      S.store := by
    rw [hw', hd']
    apply List.ext_get
    · rw [List.length_map, List.length_range, hlen]
    · intro n hn1 hn2
      have hn : n < S.store.length := hn2
      rw [List.get_eq_getElem, List.get_eq_getElem, List.getElem_map,
        List.getElem_range, MarshalBinary_read_store sz f64bits S n hn,
        Nat.mod_eq_of_lt (lt_of_le_of_lt (hcells _ (getD_mem S.store n hn))
          (cMax_lt_pow sz)), getD_eq_get S.store n hn, List.get_eq_getElem]
  rw [hok]
  exact ⟨rfl, hw', hd', hexp', hstore,
    fun key => Query_congr farm sz _ S hw' hd' hexp' hstore key⟩

/-- Witness for C5 at a concrete 1-cell sketch. -/
theorem claim_C5_witness :
    (1:ℚ) < (Sketch.mk 1 1 2 (fun _ _ => true) 0 [7]).exp ∧
    (UnmarshalBinary 1 (fun _ => (2:ℚ)) (fun _ _ _ _ => true)
        (Sketch.mk 0 0 1 (fun _ _ => false) 0 [])
        (MarshalBinary 1 (fun _ => 0)
          (Sketch.mk 1 1 2 (fun _ _ => true) 0 [7]))).1 = none ∧
    (UnmarshalBinary 1 (fun _ => (2:ℚ)) (fun _ _ _ _ => true)
        (Sketch.mk 0 0 1 (fun _ _ => false) 0 [])
        (MarshalBinary 1 (fun _ => 0)
          (Sketch.mk 1 1 2 (fun _ _ => true) 0 [7]))).2.store =
      (Sketch.mk 1 1 2 (fun _ _ => true) 0 [7]).store :=
  ⟨by decide,
    (claim_C5 (fun _ => 0) 1 (fun _ => 0) (fun _ => 2) (fun _ _ _ _ => true)
      (Sketch.mk 1 1 2 (fun _ _ => true) 0 [7])
      (Sketch.mk 0 0 1 (fun _ _ => false) 0 [])
      (by decide) (by decide) (by decide) (by decide) (by decide) (by decide)
      (by decide)).1,
    (claim_C5 (fun _ => 0) 1 (fun _ => 0) (fun _ => 2) (fun _ _ _ _ => true)
      (Sketch.mk 1 1 2 (fun _ _ => true) 0 [7])
      (Sketch.mk 0 0 1 (fun _ _ => false) 0 [])
      (by decide) (by decide) (by decide) (by decide) (by decide) (by decide)
      (by decide)).2.2.2.2.1⟩

/-- C10: an input of exactly the header-derived length whose decoded `exp`
field is `≤ 1.0` is rejected by the validation that `UnmarshalBinary`
inherits from `NewSketch`, and the receiver is left unchanged — an error
case beyond the spec's `CorruptInput` enumeration. -/
theorem claim_C10 (sz : Nat) (f64frombits : Nat → ℚ)
    (rngSeed : Nat → Nat → Nat → Nat → Bool) (R : Sketch) (data : List Nat)
    (h16 : ¬ data.length < 16)
    (hsize : data.length =
      16 + readUintLE 4 data 0 * readUintLE 4 data 4 * sz)
    (hexp : f64frombits (readUintLE 8 data 8) ≤ 1) :
    UnmarshalBinary sz f64frombits rngSeed R data =
      (some "exp must be > 1.0", R) :=
  Unmarshal_err_exp sz f64frombits rngSeed R data h16 (by rw [hsize]) hexp

/-- Witness for C10 on a 16-byte all-zero input (header decodes to
`w = d = 0`, `exp = 1 ≤ 1`). -/
theorem claim_C10_witness :
    ¬ ([0, 0, 0, 0, 0, 0, 0, 0, 0, 0, 0, 0, 0, 0, 0, 0] :
        List Nat).length < 16 ∧
    ([0, 0, 0, 0, 0, 0, 0, 0, 0, 0, 0, 0, 0, 0, 0, 0] :
        List Nat).length = 16 +
      readUintLE 4 [0, 0, 0, 0, 0, 0, 0, 0, 0, 0, 0, 0, 0, 0, 0, 0] 0 *
        readUintLE 4 [0, 0, 0, 0, 0, 0, 0, 0, 0, 0, 0, 0, 0, 0, 0, 0] 4 *
        1 ∧
    UnmarshalBinary 1 (fun _ => (1:ℚ)) (fun _ _ _ _ => true)
        (Sketch.mk 3 4 5 (fun _ _ => false) 0 [9])
        [0, 0, 0, 0, 0, 0, 0, 0, 0, 0, 0, 0, 0, 0, 0, 0] =
      (some "exp must be > 1.0", Sketch.mk 3 4 5 (fun _ _ => false) 0 [9]) :=
  ⟨by decide, by decide,
    claim_C10 1 (fun _ => 1) (fun _ _ _ _ => true)
      (Sketch.mk 3 4 5 (fun _ _ => false) 0 [9])
      [0, 0, 0, 0, 0, 0, 0, 0, 0, 0, 0, 0, 0, 0, 0, 0]
      (by decide) (by decide) (by decide)⟩

/-- C9 as stated is false: `NewSketchForEpsilonDelta` performs no validation
of `epsilon` or `delta`.  With the injected `math.Log`/`math.Pow` oracles
instantiated at the values the Go library produces on the points actually
used (`Log 2 ≈ 0.7` and `Pow 255 (1/254) ≈ 1.0222 > 1`, here `511/500`),
the call with `epsilon = 2 ∉ (0,1)` and `delta = 1/2` succeeds and returns
a sketch (`w = ⌈E/2⌉ = 2`, `d = ⌈0.7⌉ = 1`) instead of failing with an
invalid-parameter error. -/
theorem claim_C9_counterexample :
    NewSketchForEpsilonDelta (fun _ => 7/10) (fun _ _ => 511/500)
        (fun _ _ => true) 1 2 (1/2) =
      Except.ok (Sketch.mk 2 1 (511/500) (fun _ _ => true) 0 [0, 0]) := by
  have hceil1 : (⌈mathE / 2⌉ : ℤ) = 2 := by
    rw [Int.ceil_eq_iff]
    constructor
    · norm_num [mathE]
    · norm_num [mathE]
  have hceil2 : (⌈(7:ℚ)/10⌉ : ℤ) = 1 := by
    rw [Int.ceil_eq_iff]
    constructor
    · norm_num
    · norm_num
  simp only [NewSketchForEpsilonDelta, uintOfFloat, ratCeil]
  norm_num
  rw [hceil1, hceil2]
  unfold NewSketch
  rw [if_neg (by norm_num : ¬ ((511:ℚ)/500 ≤ 1))]
  rfl

/-- C9 (amended): `NewSketchForEpsilonDelta` never inspects `epsilon` or
`delta` for validity; it returns a sketch iff the computed logarithm base
`mathPow cMax (1/(cMax-1))` exceeds 1 (true of the genuine `math.Pow` for
every register width), regardless of whether the parameters lie in the unit
interval. -/
theorem claim_C9_amended (mathLog : ℚ → ℚ) (mathPow : ℚ → ℚ → ℚ)
    (rng : Nat → Nat → Bool) (sz : Nat) (epsilon delta : ℚ) :
    (∃ S, NewSketchForEpsilonDelta mathLog mathPow rng sz epsilon delta =
        Except.ok S) ↔
      1 < mathPow (cMax sz : ℚ) (1 / ((cMax sz : ℚ) - 1)) := by
  simp only [NewSketchForEpsilonDelta, NewSketch]
  by_cases h : mathPow (cMax sz : ℚ) (1 / ((cMax sz : ℚ) - 1)) ≤ 1
  · rw [if_pos h]
    constructor
    · rintro ⟨S, hS⟩
      cases hS
    · intro h1
      exact absurd h1 (not_lt.mpr h)
  · rw [if_neg h]
    constructor
    · intro _
      exact not_le.mp h
    · intro _
      exact ⟨_, rfl⟩

end CML
